import Mathlib

/-!
Verification development for the 2D FDFD solver (`ceviche/fdfd.py`).

Modelling conventions:
* Floating-point real arithmetic is idealised as exact rational arithmetic;
  complex numbers are pairs of rationals (`CC`), which keeps every definition
  computable so that concrete instances can be settled by `decide`.
* A grid of shape `Nx × Ny` is indexed by `Fin Nx × Fin Ny`; this is the
  row-major flattening bijection used throughout the Python code (C ordering),
  under which `scipy.sparse.kron A (eye Ny)` acts as `A` on the first
  coordinate.
* The external sparse linear solver (`ceviche.solvers.sparse_solve`) is out of
  scope per the spec ("consumed as a black-box solve(A, b) -> x"); it is a
  parameter `slv` of every definition that calls it, keeping the same extra
  arguments (`iterative`, `method`) as the Python call sites.
* `spdot` (imported from `ceviche.utils`, a file not under `src/`) is the
  sparse matrix product; per the spec formulas (for example
  `A = -(1/μ0)(Dxf·Dxb + Dyf·Dyb) - ...` and `Hx = ...·Dyb·Ez`) it is
  modelled as matrix multiplication / matrix action on a vector.
-/

set_option maxRecDepth 8000
set_option linter.unusedVariables false
set_option linter.unnecessarySeqFocus false

namespace Ceviche

/-- Complex numbers with rational components, standing in for the complex
floating-point scalars of the Python code.  Computable, with decidable
equality. -/
@[ext]
structure CC where
  re : ℚ
  im : ℚ
deriving DecidableEq

namespace CC

instance : Zero CC := ⟨⟨0, 0⟩⟩
instance : One CC := ⟨⟨1, 0⟩⟩
instance : Add CC := ⟨fun z w => ⟨z.re + w.re, z.im + w.im⟩⟩
instance : Neg CC := ⟨fun z => ⟨-z.re, -z.im⟩⟩
instance : Mul CC := ⟨fun z w => ⟨z.re * w.re - z.im * w.im, z.re * w.im + z.im * w.re⟩⟩
instance : Inv CC := ⟨fun z => ⟨z.re / (z.re ^ 2 + z.im ^ 2), -z.im / (z.re ^ 2 + z.im ^ 2)⟩⟩

/-- The imaginary unit (`1j` in Python). -/
def I : CC := ⟨0, 1⟩

/-- Embedding of a rational (real) scalar into `CC`. -/
def ofRat (q : ℚ) : CC := ⟨q, 0⟩

@[simp] theorem zero_re : (0 : CC).re = 0 := rfl
@[simp] theorem zero_im : (0 : CC).im = 0 := rfl
@[simp] theorem one_re : (1 : CC).re = 1 := rfl
@[simp] theorem one_im : (1 : CC).im = 0 := rfl
@[simp] theorem add_re (z w : CC) : (z + w).re = z.re + w.re := rfl
@[simp] theorem add_im (z w : CC) : (z + w).im = z.im + w.im := rfl
@[simp] theorem neg_re (z : CC) : (-z).re = -z.re := rfl
@[simp] theorem neg_im (z : CC) : (-z).im = -z.im := rfl
@[simp] theorem mul_re (z w : CC) : (z * w).re = z.re * w.re - z.im * w.im := rfl
@[simp] theorem mul_im (z w : CC) : (z * w).im = z.re * w.im + z.im * w.re := rfl
@[simp] theorem inv_re (z : CC) : (z⁻¹).re = z.re / (z.re ^ 2 + z.im ^ 2) := rfl
@[simp] theorem inv_im (z : CC) : (z⁻¹).im = -z.im / (z.re ^ 2 + z.im ^ 2) := rfl
@[simp] theorem I_re : I.re = 0 := rfl
@[simp] theorem I_im : I.im = 1 := rfl
@[simp] theorem ofRat_re (q : ℚ) : (ofRat q).re = q := rfl
@[simp] theorem ofRat_im (q : ℚ) : (ofRat q).im = 0 := rfl

instance instCommRingCC : CommRing CC where
  add := (· + ·)
  zero := 0
  neg := Neg.neg
  mul := (· * ·)
  one := 1
  add_assoc := by intros; ext <;> simp <;> ring
  zero_add := by intros; ext <;> simp
  add_zero := by intros; ext <;> simp
  add_comm := by intros; ext <;> simp <;> ring
  left_distrib := by intros; ext <;> simp <;> ring
  right_distrib := by intros; ext <;> simp <;> ring
  zero_mul := by intros; ext <;> simp
  mul_zero := by intros; ext <;> simp
  mul_assoc := by intros; ext <;> simp <;> ring
  one_mul := by intros; ext <;> simp
  mul_one := by intros; ext <;> simp
  neg_add_cancel := by intros; ext <;> simp
  mul_comm := by intros; ext <;> simp <;> ring
  nsmul := nsmulRec
  zsmul := zsmulRec

theorem normSq_ne_zero (z : CC) (h : z ≠ 0) : z.re ^ 2 + z.im ^ 2 ≠ 0 := by
  intro h0
  apply h
  have hre : z.re = 0 := by nlinarith [sq_nonneg z.re, sq_nonneg z.im]
  have him : z.im = 0 := by nlinarith [sq_nonneg z.re, sq_nonneg z.im]
  ext <;> simp [hre, him]

instance instFieldCC : Field CC where
  inv := Inv.inv
  exists_pair_ne := ⟨0, 1, by intro h; simpa using congrArg CC.re h⟩
  inv_zero := by ext <;> simp
  mul_inv_cancel := by
    intro z h
    have hd := normSq_ne_zero z h
    ext <;> simp <;> field_simp <;> ring
  nnqsmul := _
  qsmul := _

@[simp] theorem sub_re (z w : CC) : (z - w).re = z.re - w.re := by
  rw [sub_eq_add_neg, add_re, neg_re]; ring

@[simp] theorem sub_im (z w : CC) : (z - w).im = z.im - w.im := by
  rw [sub_eq_add_neg, add_im, neg_im]; ring

theorem ofRat_mul (a b : ℚ) : ofRat (a * b) = ofRat a * ofRat b := by
  ext <;> simp

theorem ofRat_ne_zero (a : ℚ) (h : a ≠ 0) : ofRat a ≠ 0 := by
  intro h0
  exact h (by simpa using congrArg CC.re h0)

theorem ofRat_inv (q : ℚ) : ofRat q⁻¹ = (ofRat q)⁻¹ := by
  rcases eq_or_ne q 0 with h | h
  · ext <;> simp [h]
  · ext <;> simp <;> field_simp <;> ring

end CC

/-- Modelled from the spec: `ceviche/constants.py` (imported by `fdfd.py` via
`from .constants import *`) is not under `src/`; it provides the vacuum
permittivity `EPSILON_0` used throughout.  We take the standard value as an
exact rational; the claims settled below depend only on its being positive
and different from `1`. -/
def EPSILON_0 : ℚ := 8.85418782e-12

/-- Modelled from the spec: vacuum permeability `MU_0` from the missing
`ceviche/constants.py`, standard value as an exact rational. -/
def MU_0 : ℚ := 1.25663706e-6

/-- Modelled from the spec: vacuum impedance `ETA_0` (the float value of
`sqrt(MU_0/EPSILON_0)`) from the missing `ceviche/constants.py`.  The claims
below use it symbolically; only its positivity matters. -/
def ETA_0 : ℚ := 376.730313668

/-- Grid index for an `Nx × Ny` grid.  This is the row-major (C-order)
flattening used by `numpy.flatten` and `scipy.sparse.kron` in the source. -/
abbrev Idx (Nx Ny : ℕ) := Fin Nx × Fin Ny

/-- A flattened complex field / permittivity / source vector. -/
abbrev Vec (Nx Ny : ℕ) := Idx Nx Ny → CC

/-- An `N × N` complex system or derivative matrix (`N = Nx·Ny`). -/
abbrev Mat (Nx Ny : ℕ) := Matrix (Idx Nx Ny) (Idx Nx Ny) CC

/-- Kronecker product of two square matrices under the row-major index
pairing; this is exactly `scipy.sparse.kron` composed with the fixed
flattening bijection. -/
def kron {m n : ℕ} (A : Matrix (Fin m) (Fin m) CC) (B : Matrix (Fin n) (Fin n) CC) :
    Matrix (Fin m × Fin n) (Fin m × Fin n) CC :=
  Matrix.of fun p q => A p.1 q.1 * B p.2 q.2

/-- `scipy.sparse.diags([v0, v1, v2], [k0, k1, k2], shape=(N, N))`: the value
`vj` is broadcast along the diagonal of offset `kj` (entry `(i, i + kj)`). -/
def diags3 (v0 v1 v2 : CC) (k0 k1 k2 : ℤ) (N : ℕ) : Matrix (Fin N) (Fin N) CC :=
  Matrix.of fun i j =>
    (if (j.val : ℤ) - (i.val : ℤ) = k0 then v0 else 0)
      + (if (j.val : ℤ) - (i.val : ℤ) = k1 then v1 else 0)
      + (if (j.val : ℤ) - (i.val : ℤ) = k2 then v2 else 0)

/-- The axis argument `w` of `createDws` (`'x'` or `'y'`). -/
inductive Axis2
  | x
  | y
deriving DecidableEq

/-- The stagger argument `s` of `createDws` / `create_sfactor`
(`'f'` forward or `'b'` backward). -/
inductive Side
  | f
  | b
deriving DecidableEq

/-- `createDws(w, s, dL, shape)`: raw (undamped) forward/backward difference
operators with wraparound, built from a 1D stencil Kronecker-multiplied with
the identity on the other axis; degenerates to the identity when the axis has
length 1. -/
def createDws (w : Axis2) (s : Side) (dL : ℚ) (Nx Ny : ℕ) : Mat Nx Ny :=
  match w with
  | .x =>
    if 1 < Nx then
      match s with
      | .f => CC.ofRat (1 / dL) • kron (diags3 (-1) 1 1 0 1 (-(Nx : ℤ) + 1) Nx) (1 : Matrix (Fin Ny) (Fin Ny) CC)
      | .b => CC.ofRat (1 / dL) • kron (diags3 1 (-1) (-1) 0 (-1) ((Nx : ℤ) - 1) Nx) (1 : Matrix (Fin Ny) (Fin Ny) CC)
    else 1
  | .y =>
    if 1 < Ny then
      match s with
      | .f => CC.ofRat (1 / dL) • kron (1 : Matrix (Fin Nx) (Fin Nx) CC) (diags3 (-1) 1 1 0 1 (-(Ny : ℤ) + 1) Ny)
      | .b => CC.ofRat (1 / dL) • kron (1 : Matrix (Fin Nx) (Fin Nx) CC) (diags3 1 (-1) (-1) 0 (-1) ((Ny : ℤ) - 1) Ny)
    else 1

/-- `sig_w(l, dw, m=3, lnR=-30)`: graded PML conductivity profile.  The
Python defaults `m=3, lnR=-30` are passed explicitly at the call site. -/
def sig_w (l dw : ℚ) (m : ℕ) (lnR : ℚ) : ℚ :=
  (-((m : ℚ) + 1) * lnR / (2 * ETA_0 * dw)) * (l / dw) ^ m

/-- `S(l, dw, omega)`: complex stretching factor `1 - i·σ(l)/(ω·ε0)`. -/
def S (l dw omega : ℚ) : CC :=
  1 - CC.I * CC.ofRat (sig_w l dw 3 (-30)) / CC.ofRat (omega * EPSILON_0)

/-- `create_sfactor(s, omega, dL, N, N_pml)`: per-index stretching factors of
one axis.  Starts from an all-ones array; the two `if`/`elif` branches
overwrite the entries `i ≤ N_pml` and `i > N − N_pml`.  Comparisons are in ℤ
because the Python ints may go negative when `N_pml ≥ N`. -/
def create_sfactor (s : Side) (omega dL : ℚ) (N N_pml : ℕ) : Fin N → CC :=
  if N_pml < 1 then fun _ => 1
  else fun i =>
    let dw : ℚ := (N_pml : ℚ) * dL
    match s with
    | .f =>
      if (i.val : ℤ) ≤ (N_pml : ℤ) then
        S (dL * ((N_pml : ℚ) - (i.val : ℚ) + 0.5)) dw omega
      else if (N : ℤ) - (N_pml : ℤ) < (i.val : ℤ) then
        S (dL * ((i.val : ℚ) - ((N : ℚ) - (N_pml : ℚ)) - 0.5)) dw omega
      else 1
    | .b =>
      if (i.val : ℤ) ≤ (N_pml : ℤ) then
        S (dL * ((N_pml : ℚ) - (i.val : ℚ) + 1)) dw omega
      else if (N : ℤ) - (N_pml : ℤ) < (i.val : ℤ) then
        S (dL * ((i.val : ℚ) - ((N : ℚ) - (N_pml : ℚ)) - 1)) dw omega
      else 1

/-- `S_create(omega, shape, npml, dL)`: the four diagonal matrices of
reciprocal stretching factors, each factor depending only on its own axis
coordinate (`Sx_f_2D[:, i] = 1/s_vector_x_f` etc.). -/
def S_create (omega : ℚ) (Nx Ny : ℕ) (npml : ℕ × ℕ) (dL : ℚ) :
    Mat Nx Ny × Mat Nx Ny × Mat Nx Ny × Mat Nx Ny :=
  let s_vector_x_f := create_sfactor .f omega dL Nx npml.1
  let s_vector_x_b := create_sfactor .b omega dL Nx npml.1
  let s_vector_y_f := create_sfactor .f omega dL Ny npml.2
  let s_vector_y_b := create_sfactor .b omega dL Ny npml.2
  (Matrix.diagonal fun p => 1 / s_vector_x_f p.1,
   Matrix.diagonal fun p => 1 / s_vector_x_b p.1,
   Matrix.diagonal fun p => 1 / s_vector_y_f p.2,
   Matrix.diagonal fun p => 1 / s_vector_y_b p.2)

/-- `compute_derivative_matrices(omega, shape, npml, dL)`: PML-damped
derivative operators `Dxf, Dxb, Dyf, Dyb`. -/
def compute_derivative_matrices (omega : ℚ) (Nx Ny : ℕ) (npml : ℕ × ℕ) (dL : ℚ) :
    Mat Nx Ny × Mat Nx Ny × Mat Nx Ny × Mat Nx Ny :=
  let Sm := S_create omega Nx Ny npml dL
  (Sm.1 * createDws .x .f dL Nx Ny,
   Sm.2.1 * createDws .x .b dL Nx Ny,
   Sm.2.2.1 * createDws .y .f dL Nx Ny,
   Sm.2.2.2 * createDws .y .b dL Nx Ny)

/-- The `info_dict` assembled in `fdfd.__init__` / `setup_derivatives`:
angular frequency plus the four cached derivative operators. -/
structure InfoDict (Nx Ny : ℕ) where
  omega : ℚ
  Dxf : Mat Nx Ny
  Dxb : Mat Nx Ny
  Dyf : Mat Nx Ny
  Dyb : Mat Nx Ny

/-- `setup_derivatives`: builds the info dictionary from the constructor
arguments. -/
def mkInfoDict (omega dL : ℚ) (Nx Ny : ℕ) (npml : ℕ × ℕ) : InfoDict Nx Ny :=
  let D := compute_derivative_matrices omega Nx Ny npml dL
  ⟨omega, D.1, D.2.1, D.2.2.1, D.2.2.2⟩

/-- `make_A_Ez(info_dict, eps_vec)`:
`A = 1/MU_0 · Dxf·Dxb + 1/MU_0 · Dyf·Dyb + ω²·(EPSILON_0·diag(eps))`. -/
def make_A_Ez {Nx Ny : ℕ} (info : InfoDict Nx Ny) (eps_vec : Vec Nx Ny) : Mat Nx Ny :=
  let diag := CC.ofRat EPSILON_0 • Matrix.diagonal eps_vec
  CC.ofRat (1 / MU_0) • (info.Dxf * info.Dxb)
    + CC.ofRat (1 / MU_0) • (info.Dyf * info.Dyb)
    + CC.ofRat (info.omega ^ 2) • diag

/-- `make_A_Hz(info_dict, eps_vec)`:
`A = Dxf·(Dxbᵀ·diag)ᵀ + Dyf·(Dybᵀ·diag)ᵀ + ω²·MU_0·I` with
`diag = 1/EPSILON_0 · diag(1/eps)`. -/
def make_A_Hz {Nx Ny : ℕ} (info : InfoDict Nx Ny) (eps_vec : Vec Nx Ny) : Mat Nx Ny :=
  let diag := CC.ofRat (1 / EPSILON_0) • Matrix.diagonal fun i => 1 / eps_vec i
  info.Dxf * (info.Dxb.transpose * diag).transpose
    + info.Dyf * (info.Dyb.transpose * diag).transpose
    + CC.ofRat (info.omega ^ 2 * MU_0) • (1 : Mat Nx Ny)

/-- `make_A_Ez_nl(info_dict, eps_vec)`: the nonlinear variant returns the
matrix as a function of the current field `Ez`, with `eps_vec` itself a
function of the field. -/
def make_A_Ez_nl {Nx Ny : ℕ} (info : InfoDict Nx Ny) (eps_vec : Vec Nx Ny → Vec Nx Ny) :
    Vec Nx Ny → Mat Nx Ny :=
  fun Ez =>
    let eps_nl := eps_vec Ez
    let diag := CC.ofRat EPSILON_0 • Matrix.diagonal eps_nl
    CC.ofRat (1 / MU_0) • (info.Dxf * info.Dxb)
      + CC.ofRat (1 / MU_0) • (info.Dyf * info.Dyb)
      + CC.ofRat (info.omega ^ 2) • diag

/-- `Ez_to_Hx(Ez, info_dict)`: `Hx = - Dyb·Ez / MU_0`. -/
def Ez_to_Hx {Nx Ny : ℕ} (Ez : Vec Nx Ny) (info : InfoDict Nx Ny) : Vec Nx Ny :=
  fun i => -(info.Dyb.mulVec Ez i) / CC.ofRat MU_0

/-- `Ez_to_Hy(Ez, info_dict)`: `Hy = Dxb·Ez / MU_0`. -/
def Ez_to_Hy {Nx Ny : ℕ} (Ez : Vec Nx Ny) (info : InfoDict Nx Ny) : Vec Nx Ny :=
  fun i => info.Dxb.mulVec Ez i / CC.ofRat MU_0

/-- `E_to_H(Ez, info_dict, eps_vec=None)`: both transverse magnetic fields. -/
def E_to_H {Nx Ny : ℕ} (Ez : Vec Nx Ny) (info : InfoDict Nx Ny) : Vec Nx Ny × Vec Nx Ny :=
  (Ez_to_Hx Ez info, Ez_to_Hy Ez info)

/-- `Hz_to_Ex(Hz, info_dict, eps_vec, adjoint=False)`. -/
def Hz_to_Ex {Nx Ny : ℕ} (Hz : Vec Nx Ny) (info : InfoDict Nx Ny) (eps_vec : Vec Nx Ny)
    (adjoint : Bool) : Vec Nx Ny :=
  if adjoint then
    fun i => info.Dyf.transpose.mulVec Hz i / eps_vec i / CC.ofRat EPSILON_0
  else
    fun i => -(info.Dyb.mulVec Hz i) / eps_vec i / CC.ofRat EPSILON_0

/-- `Hz_to_Ey(Hz, info_dict, eps_vec, adjoint=False)`. -/
def Hz_to_Ey {Nx Ny : ℕ} (Hz : Vec Nx Ny) (info : InfoDict Nx Ny) (eps_vec : Vec Nx Ny)
    (adjoint : Bool) : Vec Nx Ny :=
  if adjoint then
    fun i => -(info.Dxf.transpose.mulVec Hz i) / eps_vec i / CC.ofRat EPSILON_0
  else
    fun i => info.Dxb.mulVec Hz i / eps_vec i / CC.ofRat EPSILON_0

/-- `H_to_E(Hz, info_dict, eps_vec, adjoint=False)`. -/
def H_to_E {Nx Ny : ℕ} (Hz : Vec Nx Ny) (info : InfoDict Nx Ny) (eps_vec : Vec Nx Ny)
    (adjoint : Bool) : Vec Nx Ny × Vec Nx Ny :=
  (Hz_to_Ex Hz info eps_vec adjoint, Hz_to_Ey Hz info eps_vec adjoint)

/-- Type of the external sparse linear solver `sparse_solve(A, b, iterative,
method)`, a black box per the spec. -/
abbrev LinSolver (Nx Ny : ℕ) := Mat Nx Ny → Vec Nx Ny → Bool → String → Vec Nx Ny

/-- Type of the external nonlinear (fixed-point) solver, i.e. `sparse_solve`
invoked with `nonlinear=True` and a matrix-valued function of the field. -/
abbrev NlSolver (Nx Ny : ℕ) := (Vec Nx Ny → Mat Nx Ny) → Vec Nx Ny → Bool → String → Vec Nx Ny

/-- `solve_Ez(info_dict, eps_vec, source, iterative, method)`: assembles `A`,
forms `b = 1j·ω·source` and hands both to the external solver `slv`. -/
def solve_Ez {Nx Ny : ℕ} (slv : LinSolver Nx Ny) (info : InfoDict Nx Ny)
    (eps_vec source : Vec Nx Ny) (iterative : Bool) (method : String) : Vec Nx Ny :=
  let A := make_A_Ez info eps_vec
  let b := fun i => CC.I * CC.ofRat info.omega * source i
  slv A b iterative method

/-- `vjp_maker_solve_Ez(Ez, info_dict, eps_vec, source, ...)`: reverse-mode
rule of `solve_Ez` with respect to `eps_vec`. -/
def vjp_maker_solve_Ez {Nx Ny : ℕ} (slv : LinSolver Nx Ny) (Ez : Vec Nx Ny)
    (info : InfoDict Nx Ny) (eps_vec source : Vec Nx Ny) (iterative : Bool) (method : String) :
    Vec Nx Ny → (Idx Nx Ny → ℚ) :=
  let A := make_A_Ez info eps_vec
  fun v =>
    let Ez_aj := slv A.transpose (fun i => -(v i)) iterative method
    fun i => EPSILON_0 * info.omega ^ 2 * (Ez_aj i * Ez i).re

/-- `vjp_maker_solve_Ez_source(Ez, info_dict, eps_vec, source, ...)`:
reverse-mode rule of `solve_Ez` with respect to `source`. -/
def vjp_maker_solve_Ez_source {Nx Ny : ℕ} (slv : LinSolver Nx Ny) (Ez : Vec Nx Ny)
    (info : InfoDict Nx Ny) (eps_vec source : Vec Nx Ny) (iterative : Bool) (method : String) :
    Vec Nx Ny → Vec Nx Ny :=
  let A := make_A_Ez info eps_vec
  fun v i => CC.I * CC.ofRat info.omega * slv A.transpose v iterative method i

/-- `jvp_solve_Ez(g, Ez, info_dict, eps_vec, source, ...)`: forward-mode rule
of `solve_Ez` with respect to `eps_vec`. -/
def jvp_solve_Ez {Nx Ny : ℕ} (slv : LinSolver Nx Ny) (g Ez : Vec Nx Ny)
    (info : InfoDict Nx Ny) (eps_vec source : Vec Nx Ny) (iterative : Bool) (method : String) :
    Vec Nx Ny :=
  let A := make_A_Ez info eps_vec
  let u := fun i => Ez i * -g i
  let Ez_for := slv A u iterative method
  fun i => CC.ofRat (EPSILON_0 * info.omega ^ 2) * Ez_for i

/-- `jvp_solve_Ez_source(g, Ez, info_dict, eps_vec, source, ...)`:
forward-mode rule of `solve_Ez` with respect to `source`. -/
def jvp_solve_Ez_source {Nx Ny : ℕ} (slv : LinSolver Nx Ny) (g Ez : Vec Nx Ny)
    (info : InfoDict Nx Ny) (eps_vec source : Vec Nx Ny) (iterative : Bool) (method : String) :
    Vec Nx Ny :=
  let A := make_A_Ez info eps_vec
  fun i => CC.I * CC.ofRat info.omega * slv A g iterative method i

/-- `solve_Hz(info_dict, eps_vec, source, iterative, method)`. -/
def solve_Hz {Nx Ny : ℕ} (slv : LinSolver Nx Ny) (info : InfoDict Nx Ny)
    (eps_vec source : Vec Nx Ny) (iterative : Bool) (method : String) : Vec Nx Ny :=
  let A := make_A_Hz info eps_vec
  let b := fun i => CC.I * CC.ofRat info.omega * source i
  slv A b iterative method

/-- `vjp_maker_solve_Hz(Hz, info_dict, eps_vec, source, ...)`: reverse-mode
rule of `solve_Hz` with respect to `eps_vec`. -/
def vjp_maker_solve_Hz {Nx Ny : ℕ} (slv : LinSolver Nx Ny) (Hz : Vec Nx Ny)
    (info : InfoDict Nx Ny) (eps_vec source : Vec Nx Ny) (iterative : Bool) (method : String) :
    Vec Nx Ny → (Idx Nx Ny → ℚ) :=
  let ExEy := H_to_E Hz info eps_vec false
  let A := make_A_Hz info eps_vec
  fun v =>
    let Hz_aj := slv A.transpose (fun i => -(v i)) iterative method
    let ExEy_aj := H_to_E Hz_aj info eps_vec true
    fun i => EPSILON_0 * (ExEy_aj.1 i * ExEy.1 i + ExEy_aj.2 i * ExEy.2 i).re

/-- `vjp_maker_solve_Hz_source(Hz, info_dict, eps_vec, source, ...)`. -/
def vjp_maker_solve_Hz_source {Nx Ny : ℕ} (slv : LinSolver Nx Ny) (Hz : Vec Nx Ny)
    (info : InfoDict Nx Ny) (eps_vec source : Vec Nx Ny) (iterative : Bool) (method : String) :
    Vec Nx Ny → Vec Nx Ny :=
  let A := make_A_Hz info eps_vec
  fun v i => CC.I * CC.ofRat info.omega * slv A.transpose v iterative method i

/-- `solve_Ez_nl(info_dict, eps_vec, source, ...)`: nonlinear solve, with the
matrix a function of the field and the external solver called with
`nonlinear=True`. -/
def solve_Ez_nl {Nx Ny : ℕ} (slv_nl : NlSolver Nx Ny) (info : InfoDict Nx Ny)
    (eps_vec : Vec Nx Ny → Vec Nx Ny) (source : Vec Nx Ny) (iterative : Bool)
    (method : String) : Vec Nx Ny :=
  let A := make_A_Ez_nl info eps_vec
  let b := fun i => CC.I * CC.ofRat info.omega * source i
  slv_nl A b iterative method

/-- `vjp_maker_solve_Ez_nl`: defined in the source with the *same body* as the
linear rule `vjp_maker_solve_Ez` (it calls `make_A_Ez`, which requires a
static permittivity vector), and never registered with the engine. -/
def vjp_maker_solve_Ez_nl {Nx Ny : ℕ} (slv : LinSolver Nx Ny) (Ez : Vec Nx Ny)
    (info : InfoDict Nx Ny) (eps_vec source : Vec Nx Ny) (iterative : Bool) (method : String) :
    Vec Nx Ny → (Idx Nx Ny → ℚ) :=
  let A := make_A_Ez info eps_vec
  fun v =>
    let Ez_aj := slv A.transpose (fun i => -(v i)) iterative method
    fun i => EPSILON_0 * info.omega ^ 2 * (Ez_aj i * Ez i).re

/-- `vjp_maker_solve_Ez_nl_source`: same body as the linear source rule. -/
def vjp_maker_solve_Ez_nl_source {Nx Ny : ℕ} (slv : LinSolver Nx Ny) (Ez : Vec Nx Ny)
    (info : InfoDict Nx Ny) (eps_vec source : Vec Nx Ny) (iterative : Bool) (method : String) :
    Vec Nx Ny → Vec Nx Ny :=
  let A := make_A_Ez info eps_vec
  fun v i => CC.I * CC.ofRat info.omega * slv A.transpose v iterative method i

/-- `jvp_solve_Ez_nl`: same body as the linear forward rule. -/
def jvp_solve_Ez_nl {Nx Ny : ℕ} (slv : LinSolver Nx Ny) (g Ez : Vec Nx Ny)
    (info : InfoDict Nx Ny) (eps_vec source : Vec Nx Ny) (iterative : Bool) (method : String) :
    Vec Nx Ny :=
  let A := make_A_Ez info eps_vec
  let u := fun i => Ez i * -g i
  let Ez_for := slv A u iterative method
  fun i => CC.ofRat (EPSILON_0 * info.omega ^ 2) * Ez_for i

/-- `jvp_solve_Ez_nl_source`: same body as the linear forward source rule. -/
def jvp_solve_Ez_nl_source {Nx Ny : ℕ} (slv : LinSolver Nx Ny) (g Ez : Vec Nx Ny)
    (info : InfoDict Nx Ny) (eps_vec source : Vec Nx Ny) (iterative : Bool) (method : String) :
    Vec Nx Ny :=
  let A := make_A_Ez info eps_vec
  fun i => CC.I * CC.ofRat info.omega * slv A g iterative method i

/-- `fdfd_ez.solve_fn(eps_vec, source_vec, iterative, method)`: note the
source passes the *constants* `iterative=False, method='bicg'` to `solve_Ez`,
ignoring its own `iterative` and `method` parameters. -/
def fdfd_ez_solve_fn {Nx Ny : ℕ} (slv : LinSolver Nx Ny) (info : InfoDict Nx Ny)
    (eps_vec source_vec : Vec Nx Ny) (iterative : Bool) (method : String) : Vec Nx Ny :=
  solve_Ez slv info eps_vec source_vec false ("bicg")

/-- `fdfd_ez_nl.solve_fn(eps_vec, source_vec, iterative, method)`: likewise
passes the constants `iterative=False, method='bicg'` to `solve_Ez_nl`. -/
def fdfd_ez_nl_solve_fn {Nx Ny : ℕ} (slv_nl : NlSolver Nx Ny) (info : InfoDict Nx Ny)
    (eps_vec : Vec Nx Ny → Vec Nx Ny) (source_vec : Vec Nx Ny) (iterative : Bool)
    (method : String) : Vec Nx Ny :=
  solve_Ez_nl slv_nl info eps_vec source_vec false ("bicg")

/-- `fdfd_hz.solve_fn(eps_vec, source_vec, iterative, method)`: this one
*does* forward its `iterative` and `method` arguments. -/
def fdfd_hz_solve_fn {Nx Ny : ℕ} (slv : LinSolver Nx Ny) (info : InfoDict Nx Ny)
    (eps_vec source_vec : Vec Nx Ny) (iterative : Bool) (method : String) : Vec Nx Ny :=
  solve_Hz slv info eps_vec source_vec iterative method

/-- `fdfd.solve(source, iterative, method)` specialised to the linear Ez
class: solve for `Fz`, derive `(Fx, Fy)` through `E_to_H`, return
`(Fx, Fy, Fz)` (reshaping is the identity in this embedding). -/
def fdfd_ez_solve {Nx Ny : ℕ} (slv : LinSolver Nx Ny) (info : InfoDict Nx Ny)
    (eps_vec source : Vec Nx Ny) (iterative : Bool) (method : String) :
    Vec Nx Ny × Vec Nx Ny × Vec Nx Ny :=
  let Fz := fdfd_ez_solve_fn slv info eps_vec source iterative method
  let Fxy := E_to_H Fz info
  (Fxy.1, Fxy.2, Fz)

/-- `fdfd.solve` specialised to the nonlinear Ez class. -/
def fdfd_ez_nl_solve {Nx Ny : ℕ} (slv_nl : NlSolver Nx Ny) (info : InfoDict Nx Ny)
    (eps_vec : Vec Nx Ny → Vec Nx Ny) (source : Vec Nx Ny) (iterative : Bool)
    (method : String) : Vec Nx Ny × Vec Nx Ny × Vec Nx Ny :=
  let Fz := fdfd_ez_nl_solve_fn slv_nl info eps_vec source iterative method
  let Fxy := E_to_H Fz info
  (Fxy.1, Fxy.2, Fz)

/-- `fdfd.solve` specialised to the linear Hz class: solve for `Hz` directly,
then derive `(Ex, Ey)` through `H_to_E` (with `adjoint=False`). -/
def fdfd_hz_solve {Nx Ny : ℕ} (slv : LinSolver Nx Ny) (info : InfoDict Nx Ny)
    (eps_vec source : Vec Nx Ny) (iterative : Bool) (method : String) :
    Vec Nx Ny × Vec Nx Ny × Vec Nx Ny :=
  let Fz := fdfd_hz_solve_fn slv info eps_vec source iterative method
  let Fxy := H_to_E Fz info eps_vec false
  (Fxy.1, Fxy.2, Fz)

/-- The three autograd `@primitive` solve operations of the module. -/
inductive APrimitive
  | solve_Ez
  | solve_Hz
  | solve_Ez_nl
deriving DecidableEq

/-- Labels naming the derivative-rule functions defined in the module (each
label corresponds to the Lean definition of the same name above). -/
inductive ARule
  | vjp_maker_solve_Ez
  | vjp_maker_solve_Ez_source
  | jvp_solve_Ez
  | jvp_solve_Ez_source
  | vjp_maker_solve_Hz
  | vjp_maker_solve_Hz_source
  | jvp_solve_Hz
  | jvp_solve_Hz_source
  | vjp_maker_solve_Ez_nl
  | vjp_maker_solve_Ez_nl_source
  | jvp_solve_Ez_nl
  | jvp_solve_Ez_nl_source
deriving DecidableEq

/-- Module-level `defvjp(...)` registrations, transcribed from the source:
`defvjp(solve_Ez, None, vjp_maker_solve_Ez, vjp_maker_solve_Ez_source)` and
`defvjp(solve_Hz, None, vjp_maker_solve_Hz, vjp_maker_solve_Hz_source)` are
executed; the `defvjp(solve_Ez_nl, ...)` line is commented out, so no
reverse-mode rule is linked for the nonlinear primitive.  The entry list is
per argument slot (`info_dict`, `eps_vec`, `source`); `None` means no rule
for that slot. -/
def defvjp_registrations : APrimitive → Option (List (Option ARule))
  | .solve_Ez => some [none, some .vjp_maker_solve_Ez, some .vjp_maker_solve_Ez_source]
  | .solve_Hz => some [none, some .vjp_maker_solve_Hz, some .vjp_maker_solve_Hz_source]
  | .solve_Ez_nl => none

/-- Module-level `defjvp(...)` registrations, transcribed from the source;
the `defjvp(solve_Ez_nl, ...)` line is commented out. -/
def defjvp_registrations : APrimitive → Option (List (Option ARule))
  | .solve_Ez => some [none, some .jvp_solve_Ez, some .jvp_solve_Ez_source]
  | .solve_Hz => some [none, some .jvp_solve_Hz, some .jvp_solve_Hz_source]
  | .solve_Ez_nl => none

/-- The state built by `fdfd_ez.__init__` (through `fdfd.__init__`): stores
the constructor arguments, the derivative operators and the system matrix. -/
structure FdfdEz (Nx Ny : ℕ) where
  omega : ℚ
  dL : ℚ
  npml : ℕ × ℕ
  eps_r : Vec Nx Ny
  info : InfoDict Nx Ny
  A : Mat Nx Ny

/-- `fdfd_ez(omega, dL, eps_r, npml)`: the constructor, with Python
exceptions modelled by `Except`.  The only assertion on the construction path
(`assert not callable(eps_r)` in `fdfd_ez.__init__` and the `eps_r` setter) is
enforced here by the type of `eps_r`; the body performs *no* check relating
`npml` to the grid shape, so it is total and always returns `Except.ok`. -/
def fdfd_ez_init {Nx Ny : ℕ} (omega dL : ℚ) (eps_r : Vec Nx Ny) (npml : ℕ × ℕ) :
    Except String (FdfdEz Nx Ny) :=
  let info := mkInfoDict omega dL Nx Ny npml
  Except.ok
    { omega := omega, dL := dL, npml := npml, eps_r := eps_r, info := info,
      A := make_A_Ez info eps_r }

/-- Whether an `Except` value is an exception. -/
def isError {α β : Type} : Except α β → Bool
  | .error _ => true
  | .ok _ => false

/-! ## Specification-side definitions

These definitions follow the *spec's words* (they are not translations of the
source); each claim theorem compares a source-translated definition against
one of these. -/

/-- Follows the spec's words (§4.5, claim C1): given upstream cotangent `v`
and the already-computed forward field `F`, solve the transposed system
`Aᵀ·F_adj = −v` once (`solveT` is that single transposed-system solve), then
contract `ε0·ω²·Re(F_adj ⊙ F)` elementwise. -/
def adjoint_eps_rule_spec {Nx Ny : ℕ} (solveT : Vec Nx Ny → Vec Nx Ny) (F : Vec Nx Ny)
    (omega : ℚ) : Vec Nx Ny → (Idx Nx Ny → ℚ) :=
  fun v =>
    let F_adj := solveT fun i => -(v i)
    fun i => EPSILON_0 * omega ^ 2 * (F_adj i * F i).re

/-- Follows the claim's words (C2): the asserted system matrix
`A = −(1/μ0)·(Dxf·Dxb + Dyf·Dyb) − ε0·ω²·diag(ε)`. -/
def make_A_Ez_claimed {Nx Ny : ℕ} (info : InfoDict Nx Ny) (eps_vec : Vec Nx Ny) : Mat Nx Ny :=
  -(CC.ofRat (1 / MU_0) • (info.Dxf * info.Dxb + info.Dyf * info.Dyb))
    - CC.ofRat (EPSILON_0 * info.omega ^ 2) • Matrix.diagonal eps_vec

/-! ## Shared concrete instances for counterexamples -/

/-- Derivative operators of a concrete `1 × 1` grid with `ω = 1`, `dL = 1`
and no PML, produced by the program's own builder. -/
def exInfo1 : InfoDict 1 1 := mkInfoDict 1 1 1 1 (0, 0)

/-- The all-ones permittivity vector on the `1 × 1` grid. -/
def onesV : Vec 1 1 := fun _ => 1

/-- The all-twos permittivity vector on the `1 × 1` grid. -/
def twosV : Vec 1 1 := fun _ => CC.ofRat 2

/-- The unique index of the `1 × 1` grid. -/
def z0 : Idx 1 1 := (0, 0)

/-! ## Evaluation lemmas for the concrete instances -/

theorem create_sfactor_npml_zero (s : Side) (omega dL : ℚ) (N : ℕ) :
    create_sfactor s omega dL N 0 = fun _ => 1 := by
  unfold create_sfactor
  simp

theorem S_create_npml_zero (omega dL : ℚ) (Nx Ny : ℕ) :
    S_create omega Nx Ny (0, 0) dL = (1, 1, 1, 1) := by
  unfold S_create
  simp [create_sfactor_npml_zero, Matrix.diagonal_one]

theorem createDws_x_len1 (s : Side) (dL : ℚ) (Ny : ℕ) :
    createDws .x s dL 1 Ny = 1 := by
  unfold createDws
  simp

theorem createDws_y_len1 (w : Side) (dL : ℚ) (Nx : ℕ) :
    createDws .y w dL Nx 1 = 1 := by
  unfold createDws
  simp

theorem exInfo1_eval : exInfo1 = ⟨1, 1, 1, 1, 1⟩ := by
  unfold exInfo1 mkInfoDict compute_derivative_matrices
  rw [S_create_npml_zero]
  simp [createDws_x_len1, createDws_y_len1]

/-! ## Claim theorems -/

/-- C1 (confirmed): the reverse-mode rule of the linear Ez solve with respect
to the permittivity reassembles `A` from the retained permittivity via
`make_A_Ez`, applies the black-box solver once to the transposed matrix and
right-hand side `−v`, and returns `ε0·ω²·Re(Ez_adj ⊙ Ez)` — i.e. it equals
the spec-side rule `adjoint_eps_rule_spec` with the transposed-system solve
instantiated by the solver on `(make_A_Ez info eps)ᵀ`. -/
theorem vjp_solve_Ez_eps_follows_adjoint_spec {Nx Ny : ℕ} (slv : LinSolver Nx Ny)
    (Ez : Vec Nx Ny) (info : InfoDict Nx Ny) (eps_vec source : Vec Nx Ny)
    (iterative : Bool) (method : String) :
    vjp_maker_solve_Ez slv Ez info eps_vec source iterative method =
      adjoint_eps_rule_spec
        (fun b => slv (make_A_Ez info eps_vec).transpose b iterative method)
        Ez info.omega := rfl

/-- C2, counterexample: on the program's own `1 × 1` grid operators with
`ω = 1`, `dL = 1`, no PML and unit permittivity, the assembled Ez matrix entry
is `2/μ0 + ε0`, not the claimed `−(2/μ0) − ε0`; the two differ. -/
theorem make_A_Ez_not_claimed_sign :
    make_A_Ez exInfo1 onesV z0 z0 ≠ make_A_Ez_claimed exInfo1 onesV z0 z0 := by
  rw [exInfo1_eval]
  intro h
  have h2 := congrArg CC.re h
  simp [make_A_Ez, make_A_Ez_claimed, onesV, Matrix.add_apply, Matrix.sub_apply,
    Matrix.neg_apply, Matrix.smul_apply, smul_eq_mul, Matrix.one_apply_eq,
    Matrix.diagonal_apply_eq, z0] at h2
  norm_num [EPSILON_0, MU_0] at h2

/-- C2 (amended): the assembled Ez-linear system matrix equals
`A = +(1/μ0)·(Dxf·Dxb + Dyf·Dyb) + ε0·ω²·diag(ε)` for every permittivity
vector (the claim's two minus signs are plus signs in the code). -/
theorem make_A_Ez_formula {Nx Ny : ℕ} (info : InfoDict Nx Ny) (eps_vec : Vec Nx Ny) :
    make_A_Ez info eps_vec =
      CC.ofRat (1 / MU_0) • (info.Dxf * info.Dxb + info.Dyf * info.Dyb)
        + CC.ofRat (EPSILON_0 * info.omega ^ 2) • Matrix.diagonal eps_vec := by
  refine Matrix.ext fun i j => ?_
  simp [make_A_Ez, Matrix.add_apply, Matrix.smul_apply, smul_eq_mul, CC.ofRat_mul]
  ring

/-- C8 (confirmed): the nonlinear Ez primitive has no reverse- or
forward-mode registration (the `defvjp`/`defjvp` lines are commented out),
while the linear Ez and Hz primitives are registered with rules for both the
permittivity slot and the source slot (and `None` for the `info_dict` slot);
moreover the nonlinear rule functions exist — with bodies identical to the
linear ones. -/
theorem nonlinear_solve_unregistered :
    defvjp_registrations .solve_Ez_nl = none
    ∧ defjvp_registrations .solve_Ez_nl = none
    ∧ defvjp_registrations .solve_Ez
        = some [none, some .vjp_maker_solve_Ez, some .vjp_maker_solve_Ez_source]
    ∧ defjvp_registrations .solve_Ez
        = some [none, some .jvp_solve_Ez, some .jvp_solve_Ez_source]
    ∧ defvjp_registrations .solve_Hz
        = some [none, some .vjp_maker_solve_Hz, some .vjp_maker_solve_Hz_source]
    ∧ defjvp_registrations .solve_Hz
        = some [none, some .jvp_solve_Hz, some .jvp_solve_Hz_source]
    ∧ (∀ (Nx Ny : ℕ) (slv : LinSolver Nx Ny) (g Ez : Vec Nx Ny) (info : InfoDict Nx Ny)
        (eps_vec source : Vec Nx Ny) (iterative : Bool) (method : String),
        vjp_maker_solve_Ez_nl slv Ez info eps_vec source iterative method
            = vjp_maker_solve_Ez slv Ez info eps_vec source iterative method
          ∧ vjp_maker_solve_Ez_nl_source slv Ez info eps_vec source iterative method
            = vjp_maker_solve_Ez_source slv Ez info eps_vec source iterative method
          ∧ jvp_solve_Ez_nl slv g Ez info eps_vec source iterative method
            = jvp_solve_Ez slv g Ez info eps_vec source iterative method
          ∧ jvp_solve_Ez_nl_source slv g Ez info eps_vec source iterative method
            = jvp_solve_Ez_source slv g Ez info eps_vec source iterative method) :=
  ⟨rfl, rfl, rfl, rfl, rfl, rfl,
    fun _ _ _ _ _ _ _ _ _ _ => ⟨rfl, rfl, rfl, rfl⟩⟩

/-- C6, counterexample: on the program's own `1 × 1` grid operators, the
computed `Hx` is `−(1/μ0)·Dyb·Ez`, which differs from the claimed
`(1/(i·μ0))·Dyb·Ez` (the claimed factor carries a spurious `1/i`). -/
theorem Ez_to_Hx_not_claimed_factor :
    Ez_to_Hx onesV exInfo1 z0
      ≠ 1 / (CC.I * CC.ofRat MU_0) * exInfo1.Dyb.mulVec onesV z0 := by
  rw [exInfo1_eval]
  intro h
  have h2 := congrArg CC.re h
  simp [Ez_to_Hx, onesV, z0, Matrix.one_mulVec, div_eq_mul_inv] at h2
  norm_num [MU_0] at h2

/-- C6 (amended): the Ez-to-transverse conversion is the pure algebraic
relation `Hx = −(1/μ0)·Dyb·Ez` and `Hy = +(1/μ0)·Dxb·Ez` (no `1/i` factor and
no linear solve involved — `E_to_H` is literally the pair of these two matrix
actions), for every field vector `Ez`. -/
theorem Ez_to_H_formula {Nx Ny : ℕ} (Ez : Vec Nx Ny) (info : InfoDict Nx Ny) :
    Ez_to_Hx Ez info = (fun i => -(CC.ofRat (1 / MU_0)) * info.Dyb.mulVec Ez i)
      ∧ Ez_to_Hy Ez info = (fun i => CC.ofRat (1 / MU_0) * info.Dxb.mulVec Ez i)
      ∧ E_to_H Ez info = (Ez_to_Hx Ez info, Ez_to_Hy Ez info) := by
  refine ⟨funext fun i => ?_, funext fun i => ?_, rfl⟩
  · rw [Ez_to_Hx, div_eq_mul_inv, ← CC.ofRat_inv, ← one_div]
    ring
  · rw [Ez_to_Hy, div_eq_mul_inv, ← CC.ofRat_inv, ← one_div]
    ring

/-- Follows the claim's words (C3): face-averaged permittivity, the
arithmetic mean of a cell and its neighbor shifted by one grid line along the
given axis (wrapping at the boundary). -/
def eps_avg_spec {Nx Ny : ℕ} (w : Axis2) (eps : Vec Nx Ny) : Vec Nx Ny :=
  fun p =>
    let neighbor : Idx Nx Ny :=
      match w with
      | .x => (⟨(p.1.val + 1) % Nx, Nat.mod_lt _ p.1.pos⟩, p.2)
      | .y => (p.1, ⟨(p.2.val + 1) % Ny, Nat.mod_lt _ p.2.pos⟩)
    (eps p + eps neighbor) / CC.ofRat 2

/-- C3, counterexample: the claim makes the permittivity enter the assembled
Hz system only through a diagonal term `−ε0·ω²·ε_avg`, so the difference of
the matrices assembled at two permittivities would equal the difference of
those diagonal terms.  On the program's own `1 × 1` grid (`ω = 1`, where any
face average degenerates to the cell value) the actual difference is `1/ε0`
while the claimed one is `ε0` — they differ.  (The code's Hz system is also
`N × N`, not the claimed `2N × 2N`.) -/
theorem make_A_Hz_eps_dependence_not_claimed :
    make_A_Hz exInfo1 onesV z0 z0 - make_A_Hz exInfo1 twosV z0 z0
      ≠ -(CC.ofRat (EPSILON_0 * 1 ^ 2))
          * (eps_avg_spec .x onesV z0 - eps_avg_spec .x twosV z0) := by
  rw [exInfo1_eval]
  intro h
  have h2 := congrArg CC.re h
  simp [make_A_Hz, eps_avg_spec, onesV, twosV, z0, Matrix.transpose_one,
    Matrix.transpose_smul, Matrix.diagonal_transpose, Matrix.add_apply,
    Matrix.smul_apply, smul_eq_mul, Matrix.one_apply_eq, Matrix.diagonal_apply_eq,
    div_eq_mul_inv] at h2
  norm_num [EPSILON_0, MU_0] at h2

/-- C3 (amended): for the Hz polarization the assembled system is the single
`N × N` matrix
`A = Dxf·diag·Dxb + Dyf·diag·Dyb + ω²·μ0·I` with
`diag = (1/ε0)·diag(1/ε)` — the permittivity enters as a reciprocal diagonal
sandwiched between the derivative operators, not as a separate face-averaged
`−ε0·ω²·ε_avg` term; the magnetic source `Mz` is multiplied by `iω` and the
system is solved *directly for Hz* (no prior conversion to `Jx, Jy`), after
which `Ex, Ey` are derived through `H_to_E`. -/
theorem make_A_Hz_formula_and_solve {Nx Ny : ℕ} (slv : LinSolver Nx Ny)
    (info : InfoDict Nx Ny) (eps_vec source : Vec Nx Ny) (iterative : Bool)
    (method : String) :
    make_A_Hz info eps_vec
        = info.Dxf * (CC.ofRat (1 / EPSILON_0) • Matrix.diagonal fun i => 1 / eps_vec i)
            * info.Dxb
          + info.Dyf * (CC.ofRat (1 / EPSILON_0) • Matrix.diagonal fun i => 1 / eps_vec i)
            * info.Dyb
          + CC.ofRat (info.omega ^ 2 * MU_0) • (1 : Mat Nx Ny)
      ∧ solve_Hz slv info eps_vec source iterative method
        = slv (make_A_Hz info eps_vec) (fun i => CC.I * CC.ofRat info.omega * source i)
            iterative method
      ∧ fdfd_hz_solve slv info eps_vec source iterative method
        = (Hz_to_Ex (solve_Hz slv info eps_vec source iterative method) info eps_vec false,
           Hz_to_Ey (solve_Hz slv info eps_vec source iterative method) info eps_vec false,
           solve_Hz slv info eps_vec source iterative method) := by
  refine ⟨?_, rfl, rfl⟩
  rw [make_A_Hz]
  rw [Matrix.transpose_mul, Matrix.transpose_transpose, Matrix.transpose_smul,
    Matrix.diagonal_transpose, Matrix.transpose_mul, Matrix.transpose_transpose,
    Matrix.transpose_smul, Matrix.diagonal_transpose, Matrix.mul_assoc, Matrix.mul_assoc]

theorem kron_transpose {m n : ℕ} (A : Matrix (Fin m) (Fin m) CC)
    (B : Matrix (Fin n) (Fin n) CC) :
    (kron A B).transpose = kron A.transpose B.transpose := rfl

theorem kron_neg_left {m n : ℕ} (A : Matrix (Fin m) (Fin m) CC)
    (B : Matrix (Fin n) (Fin n) CC) :
    kron (-A) B = -(kron A B) := by
  refine Matrix.ext fun p q => ?_
  simp [kron, Matrix.neg_apply]

/-- The forward 1D stencil is the negated transpose of the backward one
(valid for every axis length, at the level of the `diags` matrices). -/
theorem diags3_f_eq_neg_transpose_b (N : ℕ) :
    diags3 (-1) 1 1 0 1 (-(N : ℤ) + 1) N
      = -(diags3 1 (-1) (-1) 0 (-1) ((N : ℤ) - 1) N).transpose := by
  refine Matrix.ext fun i j => ?_
  simp only [diags3, Matrix.of_apply, Matrix.neg_apply, Matrix.transpose_apply]
  have hA : ((i.val : ℤ) - (j.val : ℤ) = 0) = ((j.val : ℤ) - (i.val : ℤ) = 0) :=
    propext (by omega)
  have hB : ((i.val : ℤ) - (j.val : ℤ) = -1) = ((j.val : ℤ) - (i.val : ℤ) = 1) :=
    propext (by omega)
  have hC : ((i.val : ℤ) - (j.val : ℤ) = (N : ℤ) - 1)
      = ((j.val : ℤ) - (i.val : ℤ) = -(N : ℤ) + 1) :=
    propext (by omega)
  simp only [hA, hB, hC]
  split_ifs <;> ring

/-- C7, counterexample: on the degenerate `1 × 1` grid (PML width 0) the
program's builder returns `Dxf = Dxb = I` (the `Nx ≤ 1` branch of
`createDws`), so `Dxf = −Dxbᵀ` fails — the claim does not hold for *every*
grid shape. -/
theorem derivative_ops_not_antisymmetric_degenerate :
    exInfo1.Dxf ≠ -exInfo1.Dxb.transpose := by
  rw [exInfo1_eval]
  intro h
  have h2 := congrArg (fun M => CC.re (M z0 z0)) h
  simp [Matrix.transpose_one, Matrix.neg_apply, Matrix.one_apply_eq, z0] at h2
  norm_num at h2

/-- C7 (amended): for every grid shape with `Nx ≥ 2` and `Ny ≥ 2`, PML widths
`(0, 0)` (and the code's implicit zero Bloch phase), the built derivative
operators satisfy `Dxf = −Dxbᵀ` and `Dyf = −Dybᵀ` exactly; the two-sided
degenerate axes (`Nx = 1` or `Ny = 1`), where `createDws` returns the
identity, are excluded. -/
theorem createDws_x_f (dL : ℚ) (Nx Ny : ℕ) (h : 1 < Nx) :
    createDws .x .f dL Nx Ny
      = CC.ofRat (1 / dL) • kron (diags3 (-1) 1 1 0 1 (-(Nx : ℤ) + 1) Nx)
          (1 : Matrix (Fin Ny) (Fin Ny) CC) := by
  unfold createDws
  rw [if_pos h]

theorem createDws_x_b (dL : ℚ) (Nx Ny : ℕ) (h : 1 < Nx) :
    createDws .x .b dL Nx Ny
      = CC.ofRat (1 / dL) • kron (diags3 1 (-1) (-1) 0 (-1) ((Nx : ℤ) - 1) Nx)
          (1 : Matrix (Fin Ny) (Fin Ny) CC) := by
  unfold createDws
  rw [if_pos h]

theorem createDws_y_f (dL : ℚ) (Nx Ny : ℕ) (h : 1 < Ny) :
    createDws .y .f dL Nx Ny
      = CC.ofRat (1 / dL) • kron (1 : Matrix (Fin Nx) (Fin Nx) CC)
          (diags3 (-1) 1 1 0 1 (-(Ny : ℤ) + 1) Ny) := by
  unfold createDws
  rw [if_pos h]

theorem createDws_y_b (dL : ℚ) (Nx Ny : ℕ) (h : 1 < Ny) :
    createDws .y .b dL Nx Ny
      = CC.ofRat (1 / dL) • kron (1 : Matrix (Fin Nx) (Fin Nx) CC)
          (diags3 1 (-1) (-1) 0 (-1) ((Ny : ℤ) - 1) Ny) := by
  unfold createDws
  rw [if_pos h]

theorem kron_neg_right {m n : ℕ} (A : Matrix (Fin m) (Fin m) CC)
    (B : Matrix (Fin n) (Fin n) CC) :
    kron A (-B) = -(kron A B) := by
  refine Matrix.ext fun p q => ?_
  simp [kron, Matrix.neg_apply]

theorem derivative_ops_antisymmetric_no_pml (omega dL : ℚ) (Nx Ny : ℕ)
    (hx : 2 ≤ Nx) (hy : 2 ≤ Ny) :
    (mkInfoDict omega dL Nx Ny (0, 0)).Dxf
        = -(mkInfoDict omega dL Nx Ny (0, 0)).Dxb.transpose
      ∧ (mkInfoDict omega dL Nx Ny (0, 0)).Dyf
        = -(mkInfoDict omega dL Nx Ny (0, 0)).Dyb.transpose := by
  unfold mkInfoDict compute_derivative_matrices
  rw [S_create_npml_zero]
  simp only [one_mul]
  constructor
  · show createDws .x .f dL Nx Ny = -(createDws .x .b dL Nx Ny).transpose
    rw [createDws_x_f dL Nx Ny (by omega), createDws_x_b dL Nx Ny (by omega)]
    rw [Matrix.transpose_smul, kron_transpose, Matrix.transpose_one,
      diags3_f_eq_neg_transpose_b, kron_neg_left]
    rw [smul_neg]
  · show createDws .y .f dL Nx Ny = -(createDws .y .b dL Nx Ny).transpose
    rw [createDws_y_f dL Nx Ny (by omega), createDws_y_b dL Nx Ny (by omega)]
    rw [Matrix.transpose_smul, kron_transpose, Matrix.transpose_one,
      diags3_f_eq_neg_transpose_b, kron_neg_right]
    rw [smul_neg]

/-- C7, witness: the amended theorem instantiated on the concrete `2 × 2`
grid with `ω = dL = 1`. -/
theorem derivative_ops_antisymmetric_no_pml_witness :
    ((2 : ℕ) ≤ 2 ∧ (2 : ℕ) ≤ 2)
      ∧ ((mkInfoDict 1 1 2 2 (0, 0)).Dxf = -(mkInfoDict 1 1 2 2 (0, 0)).Dxb.transpose
        ∧ (mkInfoDict 1 1 2 2 (0, 0)).Dyf = -(mkInfoDict 1 1 2 2 (0, 0)).Dyb.transpose) :=
  ⟨⟨by decide, by decide⟩,
    derivative_ops_antisymmetric_no_pml 1 1 2 2 (by decide) (by decide)⟩

@[simp] theorem CC_ofRat_zero : CC.ofRat 0 = 0 := rfl

/-- `sig_w` at its default parameters in the σ_max form stated by the spec
(`σ_max = −4·lnR/(2·η0·dw)` with `lnR = −30`). -/
theorem sig_w_spec_form (l dw : ℚ) :
    sig_w l dw 3 (-30) = -4 * (-30) / (2 * ETA_0 * dw) * (l / dw) ^ 3 := by
  unfold sig_w
  norm_num

/-- Follows the spec's words for the amended claim C4: with `d = N_pml·dL`
and `σ_max = −4·lnR/(2·η0·d)` for the −30 dB target (`lnR = −30`), the factor
is `1 − i·σ_max·(l/d)³/(ω·ε0)` on the index set `i ≤ N_pml` (with depth
`l = dL·(N_pml − i + 0.5)` for the forward-staggered factor, `+1` for the
backward one) and on `i > N − N_pml` (with `l = dL·(i − (N − N_pml) − 0.5)`,
resp. `−1`), and exactly `1` at every other index. -/
def sfactor_spec (s : Side) (omega dL : ℚ) (N N_pml : ℕ) : Fin N → CC := fun i =>
  let d : ℚ := (N_pml : ℚ) * dL
  let sig_max : ℚ := -4 * (-30) / (2 * ETA_0 * d)
  let damp : ℚ → CC := fun l =>
    1 - CC.I * CC.ofRat (sig_max * (l / d) ^ 3) / CC.ofRat (omega * EPSILON_0)
  match s with
  | .f =>
    if (i.val : ℤ) ≤ (N_pml : ℤ) then
      damp (dL * ((N_pml : ℚ) - (i.val : ℚ) + 0.5))
    else if (N : ℤ) - (N_pml : ℤ) < (i.val : ℤ) then
      damp (dL * ((i.val : ℚ) - ((N : ℚ) - (N_pml : ℚ)) - 0.5))
    else 1
  | .b =>
    if (i.val : ℤ) ≤ (N_pml : ℤ) then
      damp (dL * ((N_pml : ℚ) - (i.val : ℚ) + 1))
    else if (N : ℤ) - (N_pml : ℤ) < (i.val : ℤ) then
      damp (dL * ((i.val : ℚ) - ((N : ℚ) - (N_pml : ℚ)) - 1))
    else 1

/-- C4, counterexample: on an axis of length `N = 4` with `N_pml = 1`
(`ω = dL = 1`), index `1` lies *outside* the PML layer (which comprises the
boundary cells `{0, 3}`), yet the code's forward stretching factor there is
damped (`S(0.5·dL) ≠ 1`, its imaginary part is `−σ/ε0 < 0`), contradicting
"equals 1 at every index outside the PML layer".  (The code damps
`i ≤ N_pml` on the left but only `i > N − N_pml` on the right, an index set
no reading of "within N_pml cells of either boundary" matches.) -/
theorem create_sfactor_damps_outside_pml :
    create_sfactor .f 1 1 4 1 ⟨1, by omega⟩ ≠ 1 := by
  intro h
  have h2 := congrArg CC.im h
  norm_num [create_sfactor, S, sig_w, ETA_0, EPSILON_0, div_eq_mul_inv] at h2

/-- C4 (amended): for every axis of length `N` with `N_pml ≥ 1`, the
stretching factor equals `1 − i·σ(l)/(ω·ε0)` with
`σ(l) = σ_max·(l/d)³`, `d = N_pml·dL`, `σ_max = −4·lnR/(2·η0·d)` at the
−30 dB target, on the index set `i ≤ N_pml` (left) and `i > N − N_pml`
(right) with the code's depth arguments, and equals `1` at every other
index — i.e. it equals `sfactor_spec` exactly. -/
theorem create_sfactor_eq_spec (s : Side) (omega dL : ℚ) (N N_pml : ℕ)
    (h : 1 ≤ N_pml) :
    create_sfactor s omega dL N N_pml = sfactor_spec s omega dL N N_pml := by
  funext i
  unfold create_sfactor sfactor_spec
  rw [if_neg (by omega)]
  cases s <;> split_ifs <;> simp [S, sig_w_spec_form]

/-- C4, witness: the amended theorem instantiated at `N = 4`, `N_pml = 1`,
`ω = dL = 1`. -/
theorem create_sfactor_eq_spec_witness :
    (1 : ℕ) ≤ 1 ∧ create_sfactor .f 1 1 4 1 = sfactor_spec .f 1 1 4 1 :=
  ⟨by decide, create_sfactor_eq_spec .f 1 1 4 1 (by decide)⟩

/-- The depth expression `l` that `create_sfactor` hands to the profile `S`
at index `i` (`0` at undamped indices, where `S 0 = 1`), read off from the
source branch by branch. -/
def depth_arg (s : Side) (dL : ℚ) (N N_pml : ℕ) (i : ℕ) : ℚ :=
  match s with
  | .f =>
    if (i : ℤ) ≤ (N_pml : ℤ) then dL * ((N_pml : ℚ) - (i : ℚ) + 0.5)
    else if (N : ℤ) - (N_pml : ℤ) < (i : ℤ) then dL * ((i : ℚ) - ((N : ℚ) - (N_pml : ℚ)) - 0.5)
    else 0
  | .b =>
    if (i : ℤ) ≤ (N_pml : ℤ) then dL * ((N_pml : ℚ) - (i : ℚ) + 1)
    else if (N : ℤ) - (N_pml : ℤ) < (i : ℤ) then dL * ((i : ℚ) - ((N : ℚ) - (N_pml : ℚ)) - 1)
    else 0

theorem S_zero_arg (dw omega : ℚ) : S 0 dw omega = 1 := by
  unfold S sig_w
  norm_num

/-- C5, counterexample: at the PML index `i = 0` of an axis with `N = 4`,
`N_pml = 1`, `ω = dL = 1`, the code's forward factor evaluates `S` at depth
`1.5` and the backward factor at depth `2`, so the forward depth argument is
*not* offset by `+0.5` cells there (`1.5 ≠ 2 + 0.5`; it is offset by `−0.5`). -/
theorem depth_arg_not_uniform_offset :
    create_sfactor .f 1 1 4 1 ⟨0, by omega⟩ = S (depth_arg .f 1 4 1 0) ((1 : ℚ) * 1) 1
      ∧ create_sfactor .b 1 1 4 1 ⟨0, by omega⟩ = S (depth_arg .b 1 4 1 0) ((1 : ℚ) * 1) 1
      ∧ depth_arg .f 1 4 1 0 ≠ depth_arg .b 1 4 1 0 + 0.5 * 1 := by
  refine ⟨?_, ?_, ?_⟩
  · norm_num [create_sfactor, depth_arg, S, sig_w, CC.ext_iff]
  · norm_num [create_sfactor, depth_arg, S, sig_w, CC.ext_iff]
  · norm_num [depth_arg]

/-- C5 (amended): the stretching factor at every index is `S` of the
extracted depth argument `depth_arg` (so `depth_arg` is exactly the `l` the
code uses; at undamped indices it is 0 and `S 0 = 1`), and the forward depth
argument is offset by `−0.5·dL` relative to the backward one on the left PML
branch (`i ≤ N_pml`) and by `+0.5·dL` on the right branch (`i > N − N_pml`):
the claimed uniform `+0.5` offset holds only in the right layer. -/
theorem depth_arg_characterisation (omega dL : ℚ) (N N_pml : ℕ) (h : 1 ≤ N_pml) :
    (∀ (s : Side) (i : Fin N),
        create_sfactor s omega dL N N_pml i
          = S (depth_arg s dL N N_pml i.val) ((N_pml : ℚ) * dL) omega)
      ∧ (∀ i : ℕ, (i : ℤ) ≤ (N_pml : ℤ) →
          depth_arg .f dL N N_pml i = depth_arg .b dL N N_pml i - 0.5 * dL)
      ∧ (∀ i : ℕ, ¬((i : ℤ) ≤ (N_pml : ℤ)) → (N : ℤ) - (N_pml : ℤ) < (i : ℤ) →
          depth_arg .f dL N N_pml i = depth_arg .b dL N N_pml i + 0.5 * dL) := by
  refine ⟨?_, ?_, ?_⟩
  · intro s i
    unfold create_sfactor depth_arg
    rw [if_neg (by omega)]
    cases s <;> split_ifs <;> simp [S_zero_arg]
  · intro i hi
    unfold depth_arg
    rw [if_pos hi, if_pos hi]
    ring
  · intro i hi1 hi2
    unfold depth_arg
    rw [if_neg hi1, if_pos hi2, if_neg hi1, if_pos hi2]
    ring

/-- C5, witness: the amended theorem instantiated at `N = 4`, `N_pml = 1`,
`ω = dL = 1`, evaluating the connection at index 0. -/
theorem depth_arg_characterisation_witness :
    (1 : ℕ) ≤ 1
      ∧ ((∀ (s : Side) (i : Fin 4),
            create_sfactor s 1 1 4 1 i = S (depth_arg s 1 4 1 i.val) ((1 : ℚ) * 1) 1)
        ∧ (∀ i : ℕ, (i : ℤ) ≤ (1 : ℤ) →
            depth_arg .f 1 4 1 i = depth_arg .b 1 4 1 i - 0.5 * 1)
        ∧ (∀ i : ℕ, ¬((i : ℤ) ≤ (1 : ℤ)) → (4 : ℤ) - (1 : ℤ) < (i : ℤ) →
            depth_arg .f 1 4 1 i = depth_arg .b 1 4 1 i + 0.5 * 1)) :=
  ⟨by decide, depth_arg_characterisation 1 1 4 1 (by decide)⟩

/-- C9, counterexample: constructing the linear Ez simulation on a `2 × 2`
grid with PML widths `(3, 3)` — each *larger* than the grid dimension — does
not raise any configuration error: the constructor performs no validation of
`npml` and returns normally. -/
theorem fdfd_ez_init_oversized_npml_no_error :
    isError (@fdfd_ez_init 2 2 1 1 (fun _ => 1) (3, 3)) = false := rfl

/-- C9 (amended): construction with a PML width ≥ the corresponding grid
dimension is *not* rejected: `fdfd_ez.__init__` performs no check relating
`npml` to the shape, returns normally with `npml` stored unchanged (never
coerced), and every index of the oversized axis then falls into the damped
left-hand PML branch of the stretching factor. -/
theorem fdfd_ez_init_oversized_npml_unchecked {Nx Ny : ℕ} (omega dL : ℚ)
    (eps_r : Vec Nx Ny) (npml : ℕ × ℕ) (h1 : Nx ≤ npml.1) (h2 : 1 ≤ npml.1) :
    fdfd_ez_init omega dL eps_r npml
        = Except.ok
            { omega := omega, dL := dL, npml := npml, eps_r := eps_r,
              info := mkInfoDict omega dL Nx Ny npml,
              A := make_A_Ez (mkInfoDict omega dL Nx Ny npml) eps_r }
      ∧ ∀ i : Fin Nx,
          create_sfactor .f omega dL Nx npml.1 i
            = S (dL * ((npml.1 : ℚ) - (i.val : ℚ) + 0.5)) ((npml.1 : ℚ) * dL) omega := by
  refine ⟨rfl, fun i => ?_⟩
  unfold create_sfactor
  rw [if_neg (by omega)]
  have hi : (i.val : ℤ) ≤ (npml.1 : ℤ) := by
    have := i.isLt
    omega
  simp [hi]

/-- C9, witness: the amended theorem instantiated on the concrete `2 × 2`
grid with `npml = (3, 3)`, `ω = dL = 1`, unit permittivity. -/
theorem fdfd_ez_init_oversized_npml_unchecked_witness :
    ((2 : ℕ) ≤ 3 ∧ (1 : ℕ) ≤ 3)
      ∧ (@fdfd_ez_init 2 2 1 1 (fun _ => 1) (3, 3)
          = Except.ok
              { omega := 1, dL := 1, npml := (3, 3), eps_r := fun _ => 1,
                info := mkInfoDict 1 1 2 2 (3, 3),
                A := make_A_Ez (mkInfoDict 1 1 2 2 (3, 3)) fun _ => 1 }
        ∧ ∀ i : Fin 2,
            create_sfactor .f 1 1 2 3 i
              = S (1 * ((3 : ℚ) - (i.val : ℚ) + 0.5)) ((3 : ℚ) * 1) 1) :=
  ⟨⟨by decide, by decide⟩,
    fdfd_ez_init_oversized_npml_unchecked 1 1 (fun _ => 1) (3, 3) (by decide) (by decide)⟩

/-- C10 (confirmed): for the linear and nonlinear Ez polarizations, `solve`
returns exactly the same fields for any values of `iterative` and `method` as
for `iterative=False, method='bicg'`, because `solve_fn` passes those
constants to the underlying primitive. -/
theorem ez_solve_ignores_solver_options {Nx Ny : ℕ} (slv : LinSolver Nx Ny)
    (slv_nl : NlSolver Nx Ny) (info : InfoDict Nx Ny) (eps_vec : Vec Nx Ny)
    (eps_fn : Vec Nx Ny → Vec Nx Ny) (source : Vec Nx Ny) (iterative : Bool)
    (method : String) :
    fdfd_ez_solve slv info eps_vec source iterative method
        = fdfd_ez_solve slv info eps_vec source false ("bicg")
      ∧ fdfd_ez_nl_solve slv_nl info eps_fn source iterative method
        = fdfd_ez_nl_solve slv_nl info eps_fn source false ("bicg") :=
  ⟨rfl, rfl⟩

end Ceviche
